import Mathlib

/-!
Verification of the value-semantics layer of `josepy` (`src/josepy/util.py`).

The development shallowly embeds the four structures of that module:

* `ComparableX509` - wrapper around an X509 certificate or certificate request,
  with equality and hashing derived from the DER (`FILETYPE_ASN1`) dump;
* `ComparableRSAKey`, `ComparableECKey`, `ComparableOKPKey` - wrappers around
  asymmetric keys, with equality from the private/public numbers and hashing
  from per-family canonical tuples;
* `ImmutableMap` - a fixed-schema immutable record (`__slots__` based);
* `frozendict` - an immutable mapping with canonical sorted key order.

Python values that can appear as record fields, mapping values or hash inputs
are modelled by `PyVal`.  Python tuples are encoded by the `tupNil`/`tupCons`
spine; `PyVal.tuple` builds that encoding from a list.  The CPython hash of
ints and tuples of hashables is modelled bit-for-bit (`intHash`,
`tupleHashOfLanes`, following CPython Objects/tupleobject.c, the xxHash based
scheme of CPython 3.8+, and the `PyHASH_MODULUS` reduction for ints); hashes
of strings and bytes are salted per process in CPython and are therefore left
unevaluated (`pyHashVal` returns `none` on them), but two structurally equal
hash inputs always produce equal CPython hashes within one process, so
equality of hash inputs is the faithful notion of hash agreement.

`ImmutableMap` and `frozendict` define no `__eq__` of their own: both inherit
`collections.abc.Mapping.__eq__`, which is
`isinstance(other, Mapping) and dict(self) == dict(other)` - plain dictionary
comparison that never inspects the concrete class.  This inherited equality is
modelled by `dictEqb`.

Errors are modelled by `PyErr` (`TypeError`, `KeyError`, `AttributeError`) and
fallible operations return `Except PyErr _`.  `Option Bool` models the result
of a `__eq__` method, `none` standing for `NotImplemented`.
-/

namespace Josepy

/-- A Python value, as used for record fields, mapping values and hash inputs.
Tuples are encoded by the `tupNil`/`tupCons` spine (see `PyVal.tuple`);
`cls s` stands for the class object named `s` (hash tuples are prefixed with
`self.__class__`); `bytes` is a byte string. -/
inductive PyVal where
  | int (n : Int)
  | str (s : String)
  | bytes (b : List Nat)
  | cls (c : String)
  | tupNil
  | tupCons (hd tl : PyVal)
deriving DecidableEq

/-- Build the spine encoding of the Python tuple with the given elements. -/
def PyVal.tuple (vs : List PyVal) : PyVal := vs.foldr PyVal.tupCons PyVal.tupNil

/-! ### The CPython hash of ints and tuples

Translated from CPython (`Objects/tupleobject.c`, `tuplehash`, the xxHash
based scheme used since CPython 3.8 on 64-bit builds, and
`Objects/longobject.c` reduction modulo `PyHASH_MODULUS = 2^61 - 1`). -/

/-- CPython hash of an int: reduction modulo `2^61 - 1`, keeping the sign,
with the reserved value `-1` mapped to `-2`. -/
def intHash (n : Int) : Int :=
  let h : Int := if 0 ≤ n then n % 2305843009213693951 else -((-n) % 2305843009213693951)
  if h = -1 then -2 else h

/-- Reinterpret a CPython hash value as the unsigned 64-bit lane fed to the
tuple hash (twos-complement reinterpretation). -/
def toU64 (i : Int) : Nat := (i % 18446744073709551616).toNat

/-- Rotate a 64-bit value left by 31 bits (`_PyHASH_XXROTATE`). -/
def rotl31 (x : Nat) : Nat := (x % 2 ^ 33) * 2 ^ 31 + x / 2 ^ 33

/-- One lane step of CPython `tuplehash`:
`acc += lane * _PyHASH_XXPRIME_2; acc = ROTATE(acc); acc *= _PyHASH_XXPRIME_1`. -/
def tupleStep (acc lane : Nat) : Nat :=
  (rotl31 ((acc + lane * 14029467366897019727) % 18446744073709551616) * 11400714785074694791) %
    18446744073709551616

/-- Final step of CPython `tuplehash`:
`acc += len ^ (_PyHASH_XXPRIME_5 ^ 3527539)`, with the reserved unsigned value
`-1` replaced by `1546275796`. -/
def tupleFinish (acc len : Nat) : Nat :=
  let acc2 := (acc + Nat.xor len (Nat.xor 2870177450012600261 3527539)) % 18446744073709551616
  if acc2 = 18446744073709551615 then 1546275796 else acc2

/-- Reinterpret an unsigned 64-bit accumulator as the signed `Py_hash_t`. -/
def toSigned64 (x : Nat) : Int :=
  if x < 2 ^ 63 then (x : Int) else (x : Int) - 18446744073709551616

/-- CPython hash of a tuple whose element hashes (as unsigned lanes) are
`lanes`; the accumulator starts at `_PyHASH_XXPRIME_5`. -/
def tupleHashOfLanes (lanes : List Nat) : Int :=
  toSigned64 (tupleFinish (lanes.foldl tupleStep 2870177450012600261) lanes.length)

/-- Evaluator for CPython hashes: first component is the hash of the value,
second component is the lane list of the value read as a tuple spine.  String
and byte hashes are salted per process in CPython, so they are not evaluated
(`none`); tuples are hashed whenever all their elements are. -/
def pyHashCore : PyVal → Option Int × Option (List Nat)
  | .int n => (some (intHash n), none)
  | .str _ => (none, none)
  | .bytes _ => (none, none)
  | .cls _ => (none, none)
  | .tupNil => (some (tupleHashOfLanes []), some [])
  | .tupCons a r =>
    match (pyHashCore a).1, (pyHashCore r).2 with
    | some h, some lanes => (some (tupleHashOfLanes (toU64 h :: lanes)), some (toU64 h :: lanes))
    | _, _ => (none, none)

/-- The CPython hash of a value, when all of its parts have process-independent
hashes. -/
def pyHashVal (v : PyVal) : Option Int := (pyHashCore v).1

/-! ### Python `repr` of values

Only the cases that the claims exercise matter; reprs of byte strings
abbreviate the CPython byte-literal escaping, which no claim depends on. -/

/-- Worker for `pyRepr`: first component is the repr of the value, second
component renders the value read as the remainder of a tuple spine. -/
def pyReprCore : PyVal → String × String
  | .int n => (toString n, "; " ++ toString n ++ ")")
  | .str s => ("\x27" ++ s ++ "\x27", "; \x27" ++ s ++ "\x27)")
  | .bytes b => ("b" ++ toString b, "; b" ++ toString b ++ ")")
  | .cls c => ("<class " ++ c ++ ">", "; <class " ++ c ++ ">)")
  | .tupNil => ("()", ")")
  | .tupCons a r =>
    (match r with
      | .tupNil => "(" ++ (pyReprCore a).1 ++ ",)"
      | _ => "(" ++ (pyReprCore a).1 ++ (pyReprCore r).2,
     ", " ++ (pyReprCore a).1 ++ (pyReprCore r).2)

/-- Python `repr` of a value (`{1!r}` formatting).  Ints print in decimal,
strings print between single quotes (quote escaping inside the string is not
modelled; no claim exercises it), tuples print their elements between
parentheses with a trailing comma for 1-tuples. -/
def pyRepr (v : PyVal) : String := (pyReprCore v).1

/-! ### Python string ordering and `sorted`

Python compares strings lexicographically by code point; `sorted` on the keys
of a mapping produces the ascending list.  `strLe` is that order as a boolean
function and `sortKeys` is a sorting function for it (insertion sort - the
result is characterised below as the unique `strLe`-sorted permutation, which
is all the embedding needs of CPython `sorted`). -/

/-- Lexicographic comparison of code-point lists (Python string `<=`). -/
def lexLe : List Char → List Char → Bool
  | [], _ => true
  | _ :: _, [] => false
  | a :: as, b :: bs =>
    if a.toNat < b.toNat then true
    else if b.toNat < a.toNat then false
    else lexLe as bs

/-- Python `<=` on strings: lexicographic by code point. -/
def strLe (a b : String) : Bool := lexLe a.data b.data

/-- Insert a key into a `strLe`-sorted list, keeping it sorted. -/
def insertKey (a : String) : List String → List String
  | [] => [a]
  | b :: l => if strLe a b then a :: b :: l else b :: insertKey a l

/-- Sort a list of keys ascending by code point (Python `sorted`). -/
def sortKeys : List String → List String
  | [] => []
  | a :: l => insertKey a (sortKeys l)

/-! #### Order lemmas for `strLe` -/

theorem lexLe_total (a b : List Char) : lexLe a b = true ∨ lexLe b a = true := by
  induction a generalizing b with
  | nil => left; rfl
  | cons x xs ih =>
    cases b with
    | nil => right; rfl
    | cons y ys =>
      rcases Nat.lt_trichotomy x.toNat y.toNat with h | h | h
      · left; simp [lexLe, h]
      · have h1 : ¬ x.toNat < y.toNat := by omega
        have h2 : ¬ y.toNat < x.toNat := by omega
        rcases ih ys with hy | hy
        · left; simp [lexLe, h1, h2, hy]
        · right; simp [lexLe, h1, h2, hy]
      · right; simp [lexLe, h, Nat.lt_asymm h]

theorem lexLe_antisymm {a : List Char} : ∀ {b : List Char},
    lexLe a b = true → lexLe b a = true → a = b := by
  induction a with
  | nil =>
    intro b h1 h2
    cases b with
    | nil => rfl
    | cons y ys => exact absurd h2 (by simp [lexLe])
  | cons x xs ih =>
    intro b h1 h2
    cases b with
    | nil => exact absurd h1 (by simp [lexLe])
    | cons y ys =>
      rcases Nat.lt_trichotomy x.toNat y.toNat with h | h | h
      · rw [lexLe, if_neg (Nat.lt_asymm h), if_pos h] at h2
        exact absurd h2 (by decide)
      · have h1' : ¬ x.toNat < y.toNat := by omega
        have h2' : ¬ y.toNat < x.toNat := by omega
        rw [lexLe, if_neg h1', if_neg h2'] at h1
        rw [lexLe, if_neg h2', if_neg h1'] at h2
        have hx : x = y := Char.eq_of_val_eq (UInt32.ext h)
        rw [hx, ih h1 h2]
      · rw [lexLe, if_neg (Nat.lt_asymm h), if_pos h] at h1
        exact absurd h1 (by decide)

theorem lexLe_trans {a : List Char} : ∀ {b c : List Char},
    lexLe a b = true → lexLe b c = true → lexLe a c = true := by
  induction a with
  | nil => intro b c _ _; rfl
  | cons x xs ih =>
    intro b c h1 h2
    cases b with
    | nil => exact absurd h1 (by simp [lexLe])
    | cons y ys =>
      cases c with
      | nil => exact absurd h2 (by simp [lexLe])
      | cons z zs =>
        by_cases hxy : x.toNat < y.toNat
        · by_cases hyz : y.toNat < z.toNat
          · rw [lexLe, if_pos (hxy.trans hyz)]
          · by_cases hzy : z.toNat < y.toNat
            · rw [lexLe, if_neg hyz, if_pos hzy] at h2
              exact absurd h2 (by decide)
            · have hxz : x.toNat < z.toNat := by omega
              rw [lexLe, if_pos hxz]
        · by_cases hyx : y.toNat < x.toNat
          · rw [lexLe, if_neg hxy, if_pos hyx] at h1
            exact absurd h1 (by decide)
          · rw [lexLe, if_neg hxy, if_neg hyx] at h1
            by_cases hyz : y.toNat < z.toNat
            · have hxz : x.toNat < z.toNat := by omega
              rw [lexLe, if_pos hxz]
            · by_cases hzy : z.toNat < y.toNat
              · rw [lexLe, if_neg hyz, if_pos hzy] at h2
                exact absurd h2 (by decide)
              · have hxz : ¬ x.toNat < z.toNat := by omega
                have hzx : ¬ z.toNat < x.toNat := by omega
                rw [lexLe, if_neg hyz, if_neg hzy] at h2
                rw [lexLe, if_neg hxz, if_neg hzx]
                exact ih h1 h2

theorem strLe_total (a b : String) : strLe a b = true ∨ strLe b a = true :=
  lexLe_total a.data b.data

theorem strLe_antisymm {a b : String} (h1 : strLe a b = true) (h2 : strLe b a = true) : a = b :=
  congrArg String.mk (lexLe_antisymm h1 h2)

theorem strLe_trans {a b c : String} (h1 : strLe a b = true) (h2 : strLe b c = true) :
    strLe a c = true :=
  lexLe_trans h1 h2

/-! #### `sortKeys` is the canonical ascending enumeration -/

/-- The ascending-order predicate for key lists. -/
def KeysSorted (l : List String) : Prop := List.Pairwise (fun a b => strLe a b = true) l

theorem insertKey_perm (a : String) (l : List String) :
    List.Perm (insertKey a l) (a :: l) := by
  induction l with
  | nil => exact List.Perm.refl _
  | cons b t ih =>
    by_cases h : strLe a b = true
    · simp [insertKey, h]
    · simp only [insertKey, if_neg h]
      exact (List.Perm.cons b ih).trans (List.Perm.swap a b t)

theorem insertKey_sorted (a : String) {l : List String}
    (h : List.Pairwise (fun a b => strLe a b = true) l) :
    List.Pairwise (fun a b => strLe a b = true) (insertKey a l) := by
  induction l with
  | nil => simp [insertKey]
  | cons b t ih =>
    rw [List.pairwise_cons] at h
    obtain ⟨hb, ht⟩ := h
    by_cases hab : strLe a b = true
    · rw [insertKey, if_pos hab, List.pairwise_cons]
      refine ⟨?_, List.pairwise_cons.mpr ⟨hb, ht⟩⟩
      intro x hx
      rcases List.mem_cons.mp hx with hx | hx
      · rw [hx]; exact hab
      · exact strLe_trans hab (hb x hx)
    · have hba : strLe b a = true := (strLe_total a b).resolve_left hab
      rw [insertKey, if_neg hab, List.pairwise_cons]
      refine ⟨?_, ih ht⟩
      intro x hx
      rcases List.mem_cons.mp ((insertKey_perm a t).mem_iff.mp hx) with hx | hx
      · rw [hx]; exact hba
      · exact hb x hx

theorem sortKeys_perm (l : List String) : List.Perm (sortKeys l) l := by
  induction l with
  | nil => exact List.Perm.refl _
  | cons a t ih => exact (insertKey_perm a (sortKeys t)).trans (List.Perm.cons a ih)

theorem sortKeys_sorted (l : List String) : KeysSorted (sortKeys l) := by
  induction l with
  | nil => exact List.Pairwise.nil
  | cons a t ih => exact insertKey_sorted a ih

/-- Two lists of keys that are permutations of each other sort identically:
`sortKeys` is canonical. -/
theorem sortKeys_eq_of_perm {l₁ l₂ : List String} (h : List.Perm l₁ l₂) :
    sortKeys l₁ = sortKeys l₂ := by
  haveI : IsAntisymm String (fun a b => strLe a b = true) := ⟨fun _ _ => strLe_antisymm⟩
  exact List.eq_of_perm_of_sorted
    (((sortKeys_perm l₁).trans h).trans (sortKeys_perm l₂).symm)
    (sortKeys_sorted l₁) (sortKeys_sorted l₂)

/-! ### Python exceptions raised in this module -/

/-- The exceptions this module raises: `TypeError` (construction validation),
`KeyError` (item lookup) and `AttributeError` (attribute lookup, mutation). -/
inductive PyErr where
  | typeError (msg : String)
  | keyError (key : String)
  | attributeError (msg : String)
deriving DecidableEq

instance {ε α : Type} [DecidableEq ε] [DecidableEq α] : DecidableEq (Except ε α) := fun a b =>
  match a, b with
  | .ok x, .ok y => if h : x = y then .isTrue (by rw [h]) else .isFalse (by simp [h])
  | .error x, .error y => if h : x = y then .isTrue (by rw [h]) else .isFalse (by simp [h])
  | .ok _, .error _ => .isFalse (by simp)
  | .error _, .ok _ => .isFalse (by simp)

/-! ### `ComparableX509`

`ComparableX509` wraps either an `OpenSSL.crypto.X509` certificate or an
`OpenSSL.crypto.X509Req` certificate request (the `__init__` assertion allows
exactly those two).  `_dump(FILETYPE_ASN1)` returns the deterministic DER
encoding of the wrapped object, so the wrapped object is modelled by its
variant together with that encoding.  `__eq__` checks only
`isinstance(other, self.__class__)` - both values here are wrappers, so that
check always passes - and then compares `self._dump() == other._dump()`,
regardless of which variant each side wraps. -/

/-- A wrapped OpenSSL object: a certificate or a certificate request,
identified by its DER (`FILETYPE_ASN1`) encoding. -/
inductive X509Obj where
  | cert (der : List Nat)
  | req (der : List Nat)
deriving DecidableEq

/-- Model of `ComparableX509`: wrapper for `OpenSSL.crypto.X509` / `X509Req`. -/
structure ComparableX509 where
  wrapped : X509Obj
deriving DecidableEq

/-- Model of `_dump()` with the default `FILETYPE_ASN1`: dispatches to
`dump_certificate` or `dump_certificate_request` on the variant and returns
the DER bytes. -/
def ComparableX509.dump : ComparableX509 → List Nat
  | ⟨.cert d⟩ => d
  | ⟨.req d⟩ => d

/-- Model of `ComparableX509.__eq__` between two wrappers: the `isinstance` guard
passes (both are wrappers), so the result is the comparison of the two dumps;
`none` (`NotImplemented`) is never produced between two wrappers. -/
def ComparableX509.eq (a b : ComparableX509) : Option Bool :=
  some (a.dump == b.dump)

/-- Model of `ComparableX509.__hash__` input: `hash((self.__class__, self._dump()))`. -/
def ComparableX509.hashInput (a : ComparableX509) : PyVal :=
  PyVal.tuple [.cls "ComparableX509", .bytes a.dump]

/-! ### Key wrappers

`ComparableKey.__eq__` (inherited by all three families) returns
`NotImplemented` unless `other` is an instance of `self.__class__` and the two
wrapped objects have the same class; it then compares `private_numbers()`
when the wrapped key has them, else `public_numbers()` when it has those,
else returns `NotImplemented`.  Keys are modelled by their defining numeric
material; a private key and a public key of the same family are instances of
different wrapped classes. -/

/-- A wrapped `cryptography` RSA key: the private variant carries the full
private numbers `(p, q, d, dmp1, dmq1, iqmp)` and the public numbers
`(n, e)`; the public variant carries `(n, e)`. -/
inductive RSAObj where
  | priv (p q d dmp1 dmq1 iqmp n e : Int)
  | pub (n e : Int)
deriving DecidableEq

/-- Model of `ComparableRSAKey`: wrapper for `cryptography` RSA keys. -/
structure ComparableRSAKey where
  wrapped : RSAObj
deriving DecidableEq

/-- Model of `ComparableKey.__eq__` on two RSA wrappers: `NotImplemented` when the
wrapped classes differ (private vs public); otherwise comparison of
`private_numbers()` (all eight numbers) resp. `public_numbers()` (`n`, `e`). -/
def ComparableRSAKey.eq (a b : ComparableRSAKey) : Option Bool :=
  match a.wrapped, b.wrapped with
  | .priv p q d m1 m2 iq n e, .priv p2 q2 d2 m12 m22 iq2 n2 e2 =>
    some (p == p2 && q == q2 && d == d2 && m1 == m12 && m2 == m22 && iq == iq2 &&
      n == n2 && e == e2)
  | .pub n e, .pub n2 e2 => some (n == n2 && e == e2)
  | _, _ => none

/-- Model of `ComparableRSAKey.__hash__` input:
`(self.__class__, priv.p, priv.q, priv.dmp1, priv.dmq1, priv.iqmp, pub.n, pub.e)`
for private keys (the exponent `d` is not part of the tuple) and
`(self.__class__, pub.n, pub.e)` for public keys. -/
def ComparableRSAKey.hashInput : ComparableRSAKey → Option PyVal
  | ⟨.priv p q _ m1 m2 iq n e⟩ =>
    some (.tuple [.cls "ComparableRSAKey", .int p, .int q, .int m1, .int m2, .int iq,
      .int n, .int e])
  | ⟨.pub n e⟩ => some (.tuple [.cls "ComparableRSAKey", .int n, .int e])

/-- Model of `self._wrapped.public_key()` for RSA: derives the public key from a
private key; a public RSA key object has no such method. -/
def RSAObj.publicObj : RSAObj → Option RSAObj
  | .priv _ _ _ _ _ _ n e => some (.pub n e)
  | .pub _ _ => none

/-- Model of `ComparableKey.public_key` (inherited by `ComparableRSAKey`):
`self.__class__(self._wrapped.public_key())`. -/
def ComparableRSAKey.publicKeyW (k : ComparableRSAKey) : Option ComparableRSAKey :=
  (k.wrapped.publicObj).map ComparableRSAKey.mk

/-- A wrapped `cryptography` elliptic-curve key: curve name, public point
`(x, y)` and, for the private variant, the private scalar. -/
inductive ECObj where
  | priv (curveName : String) (x y d : Int)
  | pub (curveName : String) (x y : Int)
deriving DecidableEq

/-- Model of `ComparableECKey`: wrapper for `cryptography` elliptic-curve keys. -/
structure ComparableECKey where
  wrapped : ECObj
deriving DecidableEq

/-- Model of `ComparableKey.__eq__` on two EC wrappers: `NotImplemented` when the
wrapped classes differ; otherwise comparison of `private_numbers()` (private
scalar and public numbers) resp. `public_numbers()` (curve, `x`, `y`). -/
def ComparableECKey.eq (a b : ComparableECKey) : Option Bool :=
  match a.wrapped, b.wrapped with
  | .priv c x y d, .priv c2 x2 y2 d2 => some (c == c2 && x == x2 && y == y2 && d == d2)
  | .pub c x y, .pub c2 x2 y2 => some (c == c2 && x == x2 && y == y2)
  | _, _ => none

/-- Model of `ComparableECKey.__hash__` input:
`(self.__class__, pub.curve.name, pub.x, pub.y, priv.private_value)` for
private keys and `(self.__class__, pub.curve.name, pub.x, pub.y)` for public
keys. -/
def ComparableECKey.hashInput : ComparableECKey → Option PyVal
  | ⟨.priv c x y d⟩ =>
    some (.tuple [.cls "ComparableECKey", .str c, .int x, .int y, .int d])
  | ⟨.pub c x y⟩ => some (.tuple [.cls "ComparableECKey", .str c, .int x, .int y])

/-- The public key object `ComparableECKey.public_key` wraps: both branches
(`self._wrapped.public_key()` when present, else
`self._wrapped.public_numbers().public_key(default_backend())`) produce the
public key defined by the curve and the point `(x, y)`. -/
def ECObj.derivedPublic : ECObj → ECObj
  | .priv c x y _ => .pub c x y
  | .pub c x y => .pub c x y

/-- Model of `ComparableECKey.public_key`: `self.__class__(key)` around the derived
public key object. -/
def ComparableECKey.publicKeyW (k : ComparableECKey) : ComparableECKey :=
  ⟨k.wrapped.derivedPublic⟩

/-- A wrapped OKP (Ed25519/Ed448/X25519/X448) key, identified by the curve
name and the x-coordinate of its key material.  None of the eight wrapped
classes exposes this material as `curve` or `x` attributes, and they expose
neither `private_numbers` nor `public_numbers`; the only operations they
offer the source are `public_key()` (private keys) and class identity. -/
inductive OKPObj where
  | priv (curveName : String) (x : Int)
  | pub (curveName : String) (x : Int)
deriving DecidableEq

/-- Model of `ComparableOKPKey`: wrapper for `cryptography` OKP keys. -/
structure ComparableOKPKey where
  wrapped : OKPObj
deriving DecidableEq

/-- Model of `ComparableKey.__eq__` on two OKP wrappers: OKP key objects have neither
`private_numbers` nor `public_numbers`, so the inherited `__eq__` always
reaches its final branch and returns `NotImplemented`. -/
def ComparableOKPKey.eq (_ _ : ComparableOKPKey) : Option Bool := none

/-- Model of `ComparableOKPKey.__hash__`: the body is
`hash((self.__class__, self._wrapped.curve.name, self._wrapped.x))`, but no
wrapped OKP class has a `curve` (or `x`) attribute, so the very first
attribute access `self._wrapped.curve` raises `AttributeError` and no tuple
is ever built or hashed - on private and public keys alike. -/
def ComparableOKPKey.hashInput (_ : ComparableOKPKey) : Except PyErr PyVal :=
  .error (.attributeError "curve")

/-- Model of `self._wrapped.public_key()` for OKP: derives the public key object from
a private key; public OKP key objects have no such method. -/
def OKPObj.publicObj : OKPObj → Option OKPObj
  | .priv c x => some (.pub c x)
  | .pub _ _ => none

/-- The class of an OKP key object, as a name (`type(key)`). -/
def OKPObj.className : OKPObj → String
  | .priv c _ => c ++ "PrivateKey"
  | .pub c _ => c ++ "PublicKey"

/-- Result of `ComparableOKPKey.public_key`.  `wrapper` is the shape the other
families return (a `ComparableOKPKey` around the derived key);
`bareInstanceOf cls` is what the source actually builds: `type(key)()`, a
fresh argumentless instance of the public-key class, not wrapped and carrying
none of the derived key material (with the real `cryptography` classes this
construction itself raises, as they cannot be instantiated without key
material). -/
inductive OKPPublicResult where
  | wrapper (k : ComparableOKPKey)
  | bareInstanceOf (clsName : String)
deriving DecidableEq

/-- Model of `ComparableOKPKey.public_key`: `key = self._wrapped.public_key()`, then
`return type(key)()`. -/
def ComparableOKPKey.publicKeyW (k : ComparableOKPKey) : Option OKPPublicResult :=
  (k.wrapped.publicObj).map (fun key => OKPPublicResult.bareInstanceOf key.className)

/-! ### Dictionaries and the inherited `Mapping.__eq__`

Python dictionaries with string keys are modelled as association lists with
distinct keys (a Python `dict` cannot hold a key twice); `List.lookup`
performs `d[k]`.  `collections.abc.Mapping.__eq__` - which both
`ImmutableMap` and `frozendict` inherit, neither defining an `__eq__` of its
own - is `isinstance(other, Mapping) and dict(self) == dict(other)`: between
two mappings it reduces to dictionary comparison, equal key sets with equal
values per key, and the concrete classes of the two sides are never
compared. -/

/-- Membership of a key in a key list, as a boolean. -/
def memb (s : String) (l : List String) : Bool := l.any (fun t => t == s)

/-- Python `dict` equality on association lists: every binding of each side
is looked up successfully, with the same value, on the other side. -/
def dictEqb (d₁ d₂ : List (String × PyVal)) : Bool :=
  d₁.all (fun kv => List.lookup kv.1 d₂ == some kv.2) &&
    d₂.all (fun kv => List.lookup kv.1 d₁ == some kv.2)

/-! ### `ImmutableMap`

A record type declares `__slots__`, an ordered list of field names, once; an
instance stores one value per slot.  An instance is modelled by the name of
its concrete class and its ordered field assignment; the slot list of the
type is recovered as the keys of that assignment (the constructor always
populates exactly the declared slots, in declaration order). -/

/-- An `ImmutableMap` instance: concrete record class name (distinct record
types may declare identical slot lists) and the ordered slot-to-value
assignment. -/
structure ImmutableMap where
  cls : String
  fields : List (String × PyVal)
deriving DecidableEq

/-- The slot list of the instance, in declaration order. -/
def ImmutableMap.slots (m : ImmutableMap) : List String := m.fields.map Prod.fst

/-- Model of `ImmutableMap.__init__` of a record class with the given name and slots:
the keyword set must equal the slot set exactly, else
`TypeError` with the message `__init__() takes exactly the following arguments: ...`; each
slot is then populated via `object.__setattr__`, in slot order. -/
def ImmutableMap.initIM (cls : String) (slots : List String)
    (kwargs : List (String × PyVal)) : Except PyErr ImmutableMap :=
  if (kwargs.map Prod.fst).all (fun k => memb k slots) &&
      slots.all (fun s => memb s (kwargs.map Prod.fst)) then
    .ok ⟨cls, slots.filterMap (fun s => (List.lookup s kwargs).map (fun v => (s, v)))⟩
  else
    .error (.typeError ("__init__() takes exactly the following arguments: " ++
      String.intercalate ", " slots ++ " (" ++
      (if kwargs.isEmpty then "none" else String.intercalate ", " (kwargs.map Prod.fst)) ++
      " given)"))

/-- Result of Python attribute lookup on a record instance: either the value
stored in a slot, or a method found on the class (`update` is defined by
`ImmutableMap` itself; `get`, `keys`, `items`, `values` are inherited from
`collections.abc.Mapping`). -/
inductive PyAttrResult where
  | val (v : PyVal)
  | method (name : String)
deriving DecidableEq

/-- The attribute dictionary of a record class and its bases is supplied by
the Python runtime - besides the methods visible in the source it holds
dunder methods, ABC machinery and similar entries that vary with the
interpreter version - so attribute lookup is modelled relative to a class
dictionary `clsDict`.  `classAttrs` lists the plain-named entries the source
itself guarantees on every record class: `update`, defined by `ImmutableMap`,
and `get`, `keys`, `items`, `values`, inherited from
`collections.abc.Mapping`; every actual class dictionary contains at least
these names. -/
def ImmutableMap.classAttrs : List String := ["update", "get", "keys", "items", "values"]

/-- Python attribute lookup on a record instance, relative to the attribute
dictionary `clsDict` of its class and bases: the slot descriptors of the
class resolve to the stored values; failing that, class attributes (methods
and the like) resolve; otherwise `AttributeError(name)`. -/
def ImmutableMap.getattrIM (clsDict : List String) (m : ImmutableMap) (name : String) :
    Except PyErr PyAttrResult :=
  match List.lookup name m.fields with
  | some v => .ok (.val v)
  | none =>
    if memb name clsDict then .ok (.method name)
    else .error (.attributeError name)

/-- Model of `ImmutableMap.__getitem__`: `getattr(self, key)`, with `AttributeError`
re-raised as `KeyError(key)`; like `getattrIM`, relative to the class
dictionary `clsDict`. -/
def ImmutableMap.getitem (clsDict : List String) (m : ImmutableMap) (key : String) :
    Except PyErr PyAttrResult :=
  match ImmutableMap.getattrIM clsDict m key with
  | .ok r => .ok r
  | .error _ => .error (.keyError key)

/-- Model of `ImmutableMap.__hash__` input:
`hash(tuple(getattr(self, slot) for slot in self.__slots__))` - the bare
tuple of the field values, in slot order; neither the class nor the slot
names enter the tuple. -/
def ImmutableMap.hashInput (m : ImmutableMap) : PyVal :=
  PyVal.tuple (m.fields.map (fun p => p.2))

/-- Model of `ImmutableMap.__setattr__`: unconditionally
`AttributeError` with the constant message `can\x27t set attribute` - the same for
every field name, and the instance is left untouched. -/
def ImmutableMap.setattrIM (_ : ImmutableMap) (_ : String) (_ : PyVal) :
    Except PyErr ImmutableMap :=
  .error (.attributeError "can\x27t set attribute")

/-- The dictionary `{**self, **kwargs}`: the bindings of `self` in slot
order, values overridden by `kwargs`, followed by the bindings of `kwargs`
whose keys are new. -/
def dictMerge (self kw : List (String × PyVal)) : List (String × PyVal) :=
  self.map (fun p => (p.1, (List.lookup p.1 kw).getD p.2)) ++
    kw.filter (fun q => !(self.any (fun p => p.1 == q.1)))

/-- Model of `ImmutableMap.update`: `items = {**self, **kwargs}` then
`type(self)(**items)` - a fresh construction through `__init__` of the same
record class; the receiver is not modified. -/
def ImmutableMap.updateIM (m : ImmutableMap) (kwargs : List (String × PyVal)) :
    Except PyErr ImmutableMap :=
  ImmutableMap.initIM m.cls m.slots (dictMerge m.fields kwargs)

/-- The inherited `Mapping.__eq__` between two record instances:
`dict(self) == dict(other)`; the concrete record classes are not compared. -/
def ImmutableMap.eqIM (a b : ImmutableMap) : Bool := dictEqb a.fields b.fields

/-! ### `frozendict` -/

/-- A `frozendict` instance: the `_items` mapping it stores and the `_keys`
tuple (`tuple(sorted(items.keys()))`). -/
structure frozendict where
  items : List (String × PyVal)
  keys : List String
deriving DecidableEq

/-- The state `__init__` establishes from an items mapping:
`_items = items; _keys = tuple(sorted(items.keys()))`. -/
def frozendict.mkRaw (items : List (String × PyVal)) : frozendict :=
  ⟨items, sortKeys (items.map Prod.fst)⟩

/-- A positional argument to `frozendict(...)`: either a `Mapping` or some
other object. -/
inductive PyArg where
  | mapping (m : List (String × PyVal))
  | other
deriving DecidableEq

/-- Model of `frozendict.__init__(*args, **kwargs)`:
`if kwargs and not args: items = dict(kwargs)`
`elif len(args) == 1 and isinstance(args[0], Mapping): items = args[0]`
`else: raise TypeError()` - note that the second branch also fires when
keyword bindings accompany the mapping argument, in which case the keyword
bindings are dropped. -/
def frozendict.init (args : List PyArg) (kwargs : List (String × PyVal)) :
    Except PyErr frozendict :=
  match args, kwargs with
  | [], _ :: _ => .ok (frozendict.mkRaw kwargs)
  | [.mapping m], _ => .ok (frozendict.mkRaw m)
  | _, _ => .error (.typeError "")

/-- Model of `frozendict.__getitem__`: `self._items[key]`, `KeyError(key)` if absent. -/
def frozendict.getitem (d : frozendict) (key : String) : Except PyErr PyVal :=
  match List.lookup key d.items with
  | some v => .ok v
  | none => .error (.keyError key)

/-- Model of `frozendict._sorted_items()`: `tuple((key, self[key]) for key in
self._keys)` - the bindings enumerated in the canonical sorted key order. -/
def frozendict.sortedItems (d : frozendict) : List (String × PyVal) :=
  d.keys.filterMap (fun k => (List.lookup k d.items).map (fun v => (k, v)))

/-- Model of `frozendict.__hash__` input: `hash(self._sorted_items())` - the tuple of
`(key, value)` pairs in sorted key order. -/
def frozendict.hashInput (d : frozendict) : PyVal :=
  PyVal.tuple (d.sortedItems.map (fun p => PyVal.tuple [.str p.1, p.2]))

/-- Model of `frozendict.__repr__`:
the template `frozendict({0})` filled with the `{0}={1!r}` renderings of the bindings, joined by comma-space,
over `_sorted_items()`. -/
def frozendict.reprFD (d : frozendict) : String :=
  "frozendict(" ++
    String.intercalate ", " (d.sortedItems.map (fun p => p.1 ++ "=" ++ pyRepr p.2)) ++ ")"

/-- Model of `frozendict.__setattr__`: unconditionally
`AttributeError` with the constant message `can\x27t set attribute`. -/
def frozendict.setattrFD (_ : frozendict) (_ : String) (_ : PyVal) :
    Except PyErr frozendict :=
  .error (.attributeError "can\x27t set attribute")

/-- The inherited `Mapping.__eq__` between two `frozendict` instances:
`dict(self) == dict(other)`. -/
def frozendict.eqFD (a b : frozendict) : Bool := dictEqb a.items b.items

/-! ### Lemmas about lookup and dictionary equality -/

theorem memb_iff {s : String} {l : List String} : memb s l = true ↔ s ∈ l := by
  simp [memb]

theorem all_memb_self (l : List String) : l.all (fun k => memb k l) = true := by
  rw [List.all_eq_true]
  intro k hk
  exact memb_iff.mpr hk

theorem mem_of_lookup_eq_some {β : Type} {l : List (String × β)} {k : String} {v : β}
    (h : List.lookup k l = some v) : (k, v) ∈ l := by
  induction l with
  | nil => simp [List.lookup] at h
  | cons p t ih =>
    obtain ⟨a, b⟩ := p
    rw [List.lookup] at h
    by_cases hk : k = a
    · subst hk
      simp at h
      simp [h]
    · have hne : (k == a) = false := by simpa using hk
      rw [hne] at h
      exact List.mem_cons_of_mem _ (ih h)

theorem lookup_eq_none_iff {β : Type} {l : List (String × β)} {k : String} :
    List.lookup k l = none ↔ k ∉ l.map Prod.fst := by
  induction l with
  | nil => simp [List.lookup]
  | cons p t ih =>
    obtain ⟨a, b⟩ := p
    rw [List.lookup]
    by_cases hk : k = a
    · subst hk; simp
    · have hne : (k == a) = false := by simpa using hk
      rw [hne]
      simp [ih, hk]

theorem lookup_eq_some_of_mem {β : Type} {l : List (String × β)} {k : String} {v : β}
    (hnd : (l.map Prod.fst).Nodup) (h : (k, v) ∈ l) : List.lookup k l = some v := by
  induction l with
  | nil => simp at h
  | cons p t ih =>
    obtain ⟨a, b⟩ := p
    rw [List.map_cons, List.nodup_cons] at hnd
    rcases List.mem_cons.mp h with h' | h'
    · injection h' with h1 h2
      subst h1; subst h2
      rw [List.lookup]
      simp
    · have hka : k ≠ a := by
        intro hk
        exact hnd.1 (List.mem_map.mpr ⟨(k, v), h', hk⟩)
      rw [List.lookup]
      have : (k == a) = false := by simpa using hka
      rw [this]
      exact ih hnd.2 h'

/-- One direction of dictionary equality: `dictEqb` implies pointwise equal
lookups. -/
theorem lookup_eq_of_dictEqb {d₁ d₂ : List (String × PyVal)} (h : dictEqb d₁ d₂ = true)
    (k : String) : List.lookup k d₁ = List.lookup k d₂ := by
  rw [dictEqb, Bool.and_eq_true, List.all_eq_true, List.all_eq_true] at h
  obtain ⟨h1, h2⟩ := h
  cases hl : List.lookup k d₁ with
  | some v =>
    have := h1 (k, v) (mem_of_lookup_eq_some hl)
    exact (beq_iff_eq.mp this).symm
  | none =>
    cases hr : List.lookup k d₂ with
    | none => rfl
    | some w =>
      have := h2 (k, w) (mem_of_lookup_eq_some hr)
      rw [hl] at this
      exact absurd (beq_iff_eq.mp this) (by simp)

/-- The converse: pointwise equal lookups give `dictEqb`, provided neither
side repeats a key (Python dictionaries never do). -/
theorem dictEqb_of_lookup_eq {d₁ d₂ : List (String × PyVal)}
    (hnd₁ : (d₁.map Prod.fst).Nodup) (hnd₂ : (d₂.map Prod.fst).Nodup)
    (h : ∀ k, List.lookup k d₁ = List.lookup k d₂) : dictEqb d₁ d₂ = true := by
  rw [dictEqb, Bool.and_eq_true, List.all_eq_true, List.all_eq_true]
  constructor
  · intro kv hkv
    rw [beq_iff_eq, ← h kv.1]
    exact lookup_eq_some_of_mem hnd₁ hkv
  · intro kv hkv
    rw [beq_iff_eq, h kv.1]
    exact lookup_eq_some_of_mem hnd₂ hkv

/-- Two association lists with the same (duplicate-free) key sequence and
pointwise equal lookups are equal. -/
theorem assoc_eq_of_lookup_eq : ∀ {d₁ d₂ : List (String × PyVal)},
    d₁.map Prod.fst = d₂.map Prod.fst → (d₁.map Prod.fst).Nodup →
    (∀ k, List.lookup k d₁ = List.lookup k d₂) → d₁ = d₂ := by
  intro d₁
  induction d₁ with
  | nil =>
    intro d₂ hk _ _
    cases d₂ with
    | nil => rfl
    | cons q t => simp at hk
  | cons p t ih =>
    intro d₂ hk hnd h
    cases d₂ with
    | nil => simp at hk
    | cons q s =>
      obtain ⟨a, v⟩ := p
      obtain ⟨b, w⟩ := q
      rw [List.map_cons, List.map_cons] at hk
      injection hk with hab hts
      simp only at hab
      subst hab
      rw [List.map_cons, List.nodup_cons] at hnd
      have hv : v = w := by
        have := h a
        rw [List.lookup, List.lookup] at this
        simpa using this
      subst hv
      have ht : t = s := by
        refine ih hts hnd.2 ?_
        intro k
        by_cases hka : k = a
        · subst hka
          rw [lookup_eq_none_iff.mpr hnd.1, lookup_eq_none_iff.mpr (hts ▸ hnd.1)]
        · have hne : (k == a) = false := by simpa using hka
          have hk2 := h k
          rw [List.lookup, List.lookup, hne] at hk2
          exact hk2
      rw [ht]

/-- The keys of two pointwise-equal dictionaries are a permutation of one
another. -/
theorem keys_perm_of_lookup_eq {d₁ d₂ : List (String × PyVal)}
    (hnd₁ : (d₁.map Prod.fst).Nodup) (hnd₂ : (d₂.map Prod.fst).Nodup)
    (h : ∀ k, List.lookup k d₁ = List.lookup k d₂) :
    List.Perm (d₁.map Prod.fst) (d₂.map Prod.fst) := by
  refine (List.perm_ext_iff_of_nodup hnd₁ hnd₂).mpr ?_
  intro k
  constructor
  · intro hk
    by_contra hk2
    have hn : List.lookup k d₂ = none := lookup_eq_none_iff.mpr hk2
    rw [← h k] at hn
    exact lookup_eq_none_iff.mp hn hk
  · intro hk
    by_contra hk2
    have hn : List.lookup k d₁ = none := lookup_eq_none_iff.mpr hk2
    rw [h k] at hn
    exact lookup_eq_none_iff.mp hn hk

theorem filterMap_congr_mem {α β : Type} {f g : α → Option β} : ∀ {l : List α},
    (∀ a ∈ l, f a = g a) → l.filterMap f = l.filterMap g := by
  intro l
  induction l with
  | nil => intro _; rfl
  | cons a t ih =>
    intro h
    rw [List.filterMap_cons, List.filterMap_cons, h a (List.mem_cons_self a t),
      ih (fun b hb => h b (List.mem_cons_of_mem a hb))]

/-- States of `frozendict` built from pointwise-equal item dictionaries with
duplicate-free keys canonicalise identically: equal `_keys` tuples and equal
`_sorted_items()`. -/
theorem mkRaw_canonical {i₁ i₂ : List (String × PyVal)}
    (hnd₁ : (i₁.map Prod.fst).Nodup) (hnd₂ : (i₂.map Prod.fst).Nodup)
    (h : ∀ k, List.lookup k i₁ = List.lookup k i₂) :
    (frozendict.mkRaw i₁).keys = (frozendict.mkRaw i₂).keys ∧
      (frozendict.mkRaw i₁).sortedItems = (frozendict.mkRaw i₂).sortedItems := by
  have hkeys : sortKeys (i₁.map Prod.fst) = sortKeys (i₂.map Prod.fst) :=
    sortKeys_eq_of_perm (keys_perm_of_lookup_eq hnd₁ hnd₂ h)
  refine ⟨hkeys, ?_⟩
  simp only [frozendict.sortedItems, frozendict.mkRaw]
  rw [hkeys]
  exact filterMap_congr_mem (fun k _ => by rw [h k])

/-- Every `frozendict` that `__init__` returns satisfies the construction
invariant `_keys = tuple(sorted(_items.keys()))`. -/
theorem init_keys_invariant : ∀ {args : List PyArg} {kwargs : List (String × PyVal)}
    {d : frozendict}, frozendict.init args kwargs = .ok d →
    d.keys = sortKeys (d.items.map Prod.fst) := by
  intro args kwargs d h
  match args, kwargs with
  | [], [] => simp [frozendict.init] at h
  | [], k :: ks =>
    simp only [frozendict.init, Except.ok.injEq] at h
    rw [← h]
    rfl
  | [PyArg.mapping m], kw =>
    simp only [frozendict.init, Except.ok.injEq] at h
    rw [← h]
    rfl
  | [PyArg.other], kw => simp [frozendict.init] at h
  | a :: b :: t, kw => simp [frozendict.init] at h

/-- When every keyword key is already a key of `self`, the dictionary
`{**self, **kwargs}` is `self` with the overridden values, in `self` order. -/
theorem dictMerge_of_subset {self kw : List (String × PyVal)}
    (h : ∀ q ∈ kw, q.1 ∈ self.map Prod.fst) :
    dictMerge self kw = self.map (fun p => (p.1, (List.lookup p.1 kw).getD p.2)) := by
  rw [dictMerge]
  have hnil : kw.filter (fun q => !(self.any (fun p => p.1 == q.1))) = [] := by
    rw [List.filter_eq_nil_iff]
    intro q hq
    have hb : self.any (fun p => p.1 == q.1) = true := by
      rw [List.any_eq_true]
      obtain ⟨p, hp, hpq⟩ := List.mem_map.mp (h q hq)
      exact ⟨p, hp, beq_iff_eq.mpr hpq⟩
    simp [hb]
  rw [hnil, List.append_nil]

/-- Rebuilding an association list with duplicate-free keys from its own key
sequence and lookups reproduces it (the `__init__` population loop). -/
theorem filterMap_lookup_self : ∀ {l : List (String × PyVal)},
    (l.map Prod.fst).Nodup →
    (l.map Prod.fst).filterMap (fun s => (List.lookup s l).map (fun v => (s, v))) = l := by
  intro l
  induction l with
  | nil => intro _; rfl
  | cons p t ih =>
    obtain ⟨a, v⟩ := p
    intro hnd
    rw [List.map_cons, List.nodup_cons] at hnd
    rw [List.map_cons, List.filterMap_cons]
    have h1 : List.lookup a ((a, v) :: t) = some v := by
      rw [List.lookup]
      simp
    rw [h1]
    show (a, v) :: _ = (a, v) :: t
    have hcongr : (t.map Prod.fst).filterMap
        (fun s => (List.lookup s ((a, v) :: t)).map (fun w => (s, w))) =
        (t.map Prod.fst).filterMap (fun s => (List.lookup s t).map (fun w => (s, w))) := by
      refine filterMap_congr_mem ?_
      intro s hs
      have hsa : (s == a) = false := by
        have : s ≠ a := fun hsa => hnd.1 (hsa ▸ hs)
        simpa using this
      rw [List.lookup, hsa]
    rw [hcongr, ih hnd.2]

/-- The constructor `ImmutableMap.__init__` of a record class, fed exactly one value per
slot, stores exactly those bindings in slot order. -/
theorem initIM_exact (cls : String) {kw : List (String × PyVal)}
    (hnd : (kw.map Prod.fst).Nodup) :
    ImmutableMap.initIM cls (kw.map Prod.fst) kw = .ok ⟨cls, kw⟩ := by
  rw [ImmutableMap.initIM, all_memb_self, if_pos (show (true && true) = true from rfl)]
  rw [filterMap_lookup_self hnd]

/-- Reconstruction of a `frozendict` satisfying the construction invariant
from its items. -/
theorem frozendict_eta {d : frozendict}
    (hk : d.keys = sortKeys (d.items.map Prod.fst)) : d = frozendict.mkRaw d.items := by
  obtain ⟨i, k⟩ := d
  rw [frozendict.mkRaw, frozendict.mk.injEq]
  exact ⟨rfl, hk⟩

/-- Two constructed `frozendict` values holding pointwise-equal item
dictionaries have equal `_keys` and equal `_sorted_items()`. -/
theorem frozendict_canonical {d₁ d₂ : frozendict}
    (hk₁ : d₁.keys = sortKeys (d₁.items.map Prod.fst))
    (hk₂ : d₂.keys = sortKeys (d₂.items.map Prod.fst))
    (hnd₁ : (d₁.items.map Prod.fst).Nodup) (hnd₂ : (d₂.items.map Prod.fst).Nodup)
    (heq : dictEqb d₁.items d₂.items = true) :
    d₁.keys = d₂.keys ∧ d₁.sortedItems = d₂.sortedItems := by
  have h := mkRaw_canonical hnd₁ hnd₂ (lookup_eq_of_dictEqb heq)
  constructor
  · rw [frozendict_eta hk₁, frozendict_eta hk₂]
    exact h.1
  · rw [frozendict_eta hk₁, frozendict_eta hk₂]
    exact h.2

/-! ## The claims -/

/-- Claim C3, counterexample.  The claim states that comparing a certificate
wrapper with a certificate-request wrapper yields NotImplemented (modelled as
`none`), never a silent boolean produced by comparing the dumps of the two
variants.  In the code the `isinstance` guard passes for any two wrappers, so
the cross-variant comparison compares the two DER dumps and returns that
boolean: a silent `false` for distinct dumps, and even `true` for equal
dumps. -/
theorem C3_counterexample :
    ComparableX509.eq ⟨.cert [48]⟩ ⟨.req [49]⟩ = some false ∧
      ComparableX509.eq ⟨.cert [48]⟩ ⟨.req [48]⟩ = some true := by
  decide

/-- Claim C3, amended.  Between two wrappers, `__eq__` never returns
NotImplemented and returns `True` exactly when the two DER dumps agree
byte-for-byte, regardless of which variant each side wraps; NotImplemented
arises only when the other operand is not a wrapper at all. -/
theorem C3_amended (a b : ComparableX509) :
    (ComparableX509.eq a b).isSome = true ∧
      (ComparableX509.eq a b = some true ↔ a.dump = b.dump) := by
  refine ⟨rfl, ?_⟩
  simp [ComparableX509.eq]

/-- Claim C4, counterexample.  The claim states that constructing a
`frozendict` from a mapping argument together with named bindings fails with
a `TypeError` rather than silently discarding part of the input.  In the code
the `elif len(args) == 1 and isinstance(args[0], Mapping)` branch fires even
when keyword bindings are present, so
`frozendict({"a": 1}, b=2)` succeeds and drops the binding `b=2`. -/
theorem C4_counterexample :
    frozendict.init [PyArg.mapping [("a", PyVal.int 1)]] [("b", PyVal.int 2)] =
        .ok (frozendict.mkRaw [("a", PyVal.int 1)]) ∧
      frozendict.getitem (frozendict.mkRaw [("a", PyVal.int 1)]) "b" =
        .error (.keyError "b") := by
  decide

/-- Claim C4, amended.  Construction from named bindings alone succeeds;
construction from a single mapping argument succeeds, silently discarding any
named bindings supplied alongside it; construction from no source at all, or
from a positional argument that is not a mapping, raises `TypeError`. -/
theorem C4_amended (m : List (String × PyVal)) (kw : List (String × PyVal))
    (k : String × PyVal) (ks : List (String × PyVal)) :
    frozendict.init [] (k :: ks) = .ok (frozendict.mkRaw (k :: ks)) ∧
      frozendict.init [PyArg.mapping m] kw = .ok (frozendict.mkRaw m) ∧
      frozendict.init [] [] = .error (.typeError "") ∧
      frozendict.init [PyArg.other] kw = .error (.typeError "") := by
  refine ⟨rfl, rfl, rfl, rfl⟩

/-- Claim C5, evaluation at the failing input.  The claim (and the spec
table) say hashing a wrapped OKP key succeeds with the tuple
`(concrete variant tag, curve name, x-coordinate)` - exactly the tuple the
source spells out - but none of the eight wrapped `cryptography` OKP classes
exposes a `curve` or `x` attribute, so `hash()` raises `AttributeError` on
every wrapped OKP key, private or public, and never produces that tuple. -/
theorem C5_okp_hash (c : String) (x : Int) :
    ComparableOKPKey.hashInput ⟨.priv c x⟩ = .error (.attributeError "curve") ∧
      ComparableOKPKey.hashInput ⟨.pub c x⟩ = .error (.attributeError "curve") :=
  ⟨rfl, rfl⟩

/-- Claim C6, evaluation of the code at the failing input.  For RSA and EC
private keys, `public_key()` does return a wrapper of the same family around
the derived public key.  For an OKP private key the source executes
`key = self._wrapped.public_key(); return type(key)()`: the result is a
fresh, argumentless instance of the public-key class - not a
`ComparableOKPKey` wrapper and not the derived public key - contradicting
both the claim and the docstring of the method. -/
theorem C6_public_key_eval :
    (∀ p q d m1 m2 iq n e : Int,
      ComparableRSAKey.publicKeyW ⟨.priv p q d m1 m2 iq n e⟩ = some ⟨.pub n e⟩) ∧
      (∀ (c : String) (x y d : Int),
        ComparableECKey.publicKeyW ⟨.priv c x y d⟩ = ⟨.pub c x y⟩) ∧
      (∀ (c : String) (x : Int),
        ComparableOKPKey.publicKeyW ⟨.priv c x⟩ =
            some (OKPPublicResult.bareInstanceOf (c ++ "PublicKey")) ∧
          ∀ w : ComparableOKPKey,
            ComparableOKPKey.publicKeyW ⟨.priv c x⟩ ≠ some (OKPPublicResult.wrapper w)) := by
  refine ⟨fun _ _ _ _ _ _ _ _ => rfl, fun _ _ _ _ => rfl, fun c x => ⟨rfl, fun w h => ?_⟩⟩
  simp [ComparableOKPKey.publicKeyW, OKPObj.publicObj, OKPObj.className] at h

/-- Claim C7, counterexample.  The claim states that the immutable-violation
error names the field being assigned.  The source raises
`AttributeError` with the constant message `can\x27t set attribute`, in which the
field name (here `alg`) does not occur. -/
theorem C7_counterexample :
    ImmutableMap.setattrIM ⟨"Header", [("alg", PyVal.str "RS256")]⟩ "alg" (PyVal.str "HS256") =
        .error (.attributeError "can\x27t set attribute") ∧
      ¬ List.IsInfix "alg".data "can\x27t set attribute".data := by
  refine ⟨rfl, by decide⟩

/-- Claim C7, amended.  Every attempted attribute assignment on a record or a
frozen mapping raises `AttributeError` with the constant message
`can\x27t set attribute` (the message does not identify the field); no mutation
takes place (the operation returns no updated value). -/
theorem C7_amended :
    (∀ (m : ImmutableMap) (name : String) (v : PyVal),
      ImmutableMap.setattrIM m name v = .error (.attributeError "can\x27t set attribute")) ∧
      (∀ (d : frozendict) (name : String) (v : PyVal),
        frozendict.setattrFD d name v = .error (.attributeError "can\x27t set attribute")) :=
  ⟨fun _ _ _ => rfl, fun _ _ _ => rfl⟩

/-- Claim C2, counterexample.  The claim states that comparing instances of
two different record types is never `True`.  Records inherit
`Mapping.__eq__`, which compares only the key-value dictionaries: two
instances of distinct record classes with the same single binding compare
equal. -/
theorem C2_counterexample :
    ImmutableMap.eqIM ⟨"TypeA", [("x", PyVal.int 1)]⟩ ⟨"TypeB", [("x", PyVal.int 1)]⟩ = true ∧
      ("TypeA" : String) ≠ "TypeB" := by
  decide

/-- Claim C2, amended.  Equality of records is the inherited dictionary
comparison: for two instances declaring the same slots (in particular two
instances of the same record type), it holds exactly when every field
compares equal pairwise; the concrete record class is never inspected, so
instances of different record types with equal field dictionaries also
compare equal rather than being incomparable. -/
theorem C2_amended (a b : ImmutableMap) (hslots : a.slots = b.slots)
    (hnd : a.slots.Nodup) :
    ImmutableMap.eqIM a b = true ↔ a.fields = b.fields := by
  constructor
  · intro h
    exact assoc_eq_of_lookup_eq hslots hnd (lookup_eq_of_dictEqb h)
  · intro h
    exact dictEqb_of_lookup_eq hnd (by rw [← h]; exact hnd) (fun k => by rw [h])

/-- Witness for C2: two instances of distinct record classes over the slot
`typ` with the same stored value. -/
theorem C2_amended_witness :
    ImmutableMap.eqIM ⟨"HeaderA", [("typ", PyVal.str "JWT")]⟩
        ⟨"HeaderB", [("typ", PyVal.str "JWT")]⟩ = true ↔
      [("typ", PyVal.str "JWT")] = [("typ", PyVal.str "JWT")] :=
  C2_amended ⟨"HeaderA", [("typ", PyVal.str "JWT")]⟩ ⟨"HeaderB", [("typ", PyVal.str "JWT")]⟩
    rfl (by decide)

/-- Claim C10, counterexample.  The claim states that item lookup with a name
outside the schema always fails with `KeyError` and never resolves to
anything but a stored field value.  `__getitem__` delegates to `getattr`,
which also finds class attributes: looking up the method name `update` -
present in every class dictionary, being defined by the source itself - on a
record whose schema is `[typ]` returns the bound method, not `KeyError`
(the class dictionary is instantiated here with its source-guaranteed subset
`classAttrs`, which contains `update`). -/
theorem C10_counterexample :
    ImmutableMap.getitem ImmutableMap.classAttrs ⟨"Header", [("typ", PyVal.str "JWT")]⟩
        "update" = .ok (PyAttrResult.method "update") ∧
      memb "update" ImmutableMap.classAttrs = true ∧
      ¬ "update" ∈ (ImmutableMap.mk "Header" [("typ", PyVal.str "JWT")]).slots := by
  decide

/-- Claim C10, amended.  For a name in the schema, item lookup and attribute
access return the same stored value, whatever the class dictionary holds.
For a name outside the schema, item lookup raises `KeyError(name)` exactly
when the name is absent from the attribute dictionary of the record class
and its bases; when the name is present there (the source-defined method
`update`, the inherited `get`, `keys`, `items`, `values`, or any dunder or
ABC entry the runtime supplies), lookup resolves to that class attribute
instead of failing.  The statement is proved for every class dictionary
`clsDict`. -/
theorem C10_amended (clsDict : List String) (m : ImmutableMap) (k : String) :
    (∀ v : PyVal, List.lookup k m.fields = some v →
      ImmutableMap.getitem clsDict m k = .ok (.val v) ∧
        ImmutableMap.getattrIM clsDict m k = .ok (.val v)) ∧
      (k ∉ m.slots → memb k clsDict = false →
        ImmutableMap.getitem clsDict m k = .error (.keyError k)) ∧
      (k ∉ m.slots → memb k clsDict = true →
        ImmutableMap.getitem clsDict m k = .ok (.method k)) := by
  refine ⟨?_, ?_, ?_⟩
  · intro v hv
    rw [ImmutableMap.getitem, ImmutableMap.getattrIM, hv]
    exact ⟨rfl, rfl⟩
  · intro hk hc
    rw [ImmutableMap.getitem, ImmutableMap.getattrIM, lookup_eq_none_iff.mpr hk, hc]
    rfl
  · intro hk hc
    rw [ImmutableMap.getitem, ImmutableMap.getattrIM, lookup_eq_none_iff.mpr hk, hc]
    rfl

/-- Witness for C10 on a concrete record with schema `[typ]` and the
source-guaranteed class dictionary: lookup of the schema name, of an absent
plain name (`kid` names no attribute of the class or its bases), and of the
inherited method name `keys`. -/
theorem C10_amended_witness :
    (ImmutableMap.getitem ImmutableMap.classAttrs ⟨"Header", [("typ", PyVal.str "JWT")]⟩
          "typ" = .ok (.val (PyVal.str "JWT")) ∧
        ImmutableMap.getattrIM ImmutableMap.classAttrs ⟨"Header", [("typ", PyVal.str "JWT")]⟩
          "typ" = .ok (.val (PyVal.str "JWT"))) ∧
      ImmutableMap.getitem ImmutableMap.classAttrs ⟨"Header", [("typ", PyVal.str "JWT")]⟩
        "kid" = .error (.keyError "kid") ∧
      ImmutableMap.getitem ImmutableMap.classAttrs ⟨"Header", [("typ", PyVal.str "JWT")]⟩
        "keys" = .ok (.method "keys") :=
  ⟨(C10_amended ImmutableMap.classAttrs ⟨"Header", [("typ", PyVal.str "JWT")]⟩ "typ").1
      (PyVal.str "JWT") (by decide),
    (C10_amended ImmutableMap.classAttrs ⟨"Header", [("typ", PyVal.str "JWT")]⟩ "kid").2.1
      (by decide) (by decide),
    (C10_amended ImmutableMap.classAttrs ⟨"Header", [("typ", PyVal.str "JWT")]⟩ "keys").2.2
      (by decide) (by decide)⟩

/-- Claim C9.  `update` fed keyword bindings whose keys all lie in the schema
returns a fresh record of the same class whose fields are those of the
receiver with the supplied bindings substituted; the receiver itself is
not modified (no operation of the embedding mutates it, and the witness
below re-reads the original after the update). -/
theorem C9_update (m : ImmutableMap) (kw : List (String × PyVal))
    (hnd : (m.fields.map Prod.fst).Nodup)
    (hsub : ∀ q ∈ kw, q.1 ∈ m.fields.map Prod.fst) :
    m.updateIM kw =
      .ok ⟨m.cls, m.fields.map (fun p => (p.1, (List.lookup p.1 kw).getD p.2))⟩ := by
  rw [ImmutableMap.updateIM, dictMerge_of_subset hsub]
  have hkeys : (m.fields.map (fun p => (p.1, (List.lookup p.1 kw).getD p.2))).map Prod.fst =
      m.fields.map Prod.fst := by
    rw [List.map_map]
    rfl
  have hnd2 : ((m.fields.map (fun p => (p.1, (List.lookup p.1 kw).getD p.2))).map
      Prod.fst).Nodup := by
    rw [hkeys]
    exact hnd
  have h := initIM_exact m.cls hnd2
  rw [hkeys] at h
  exact h

/-- Witness for C9: the record `{typ: JWT, alg: RS256}` updated with
`alg=HS256` yields `{typ: JWT, alg: HS256}`, while the original record still
holds `alg == RS256`. -/
theorem C9_update_witness :
    ImmutableMap.updateIM ⟨"Header", [("typ", PyVal.str "JWT"), ("alg", PyVal.str "RS256")]⟩
        [("alg", PyVal.str "HS256")] =
      .ok ⟨"Header", [("typ", PyVal.str "JWT"), ("alg", PyVal.str "HS256")]⟩ ∧
    ImmutableMap.getitem ImmutableMap.classAttrs
        ⟨"Header", [("typ", PyVal.str "JWT"), ("alg", PyVal.str "RS256")]⟩
        "alg" = .ok (.val (PyVal.str "RS256")) := by
  constructor
  · rw [C9_update ⟨"Header", [("typ", PyVal.str "JWT"), ("alg", PyVal.str "RS256")]⟩
      [("alg", PyVal.str "HS256")] (by decide) (by decide)]
    decide
  · decide

/-- Claim C8.  Any two successfully constructed frozen mappings holding the
same key-value bindings - whatever the construction source and order - are
equal under the inherited mapping equality, have identical hash inputs,
identical `_keys` iteration tuples in ascending sorted order, and identical
textual representations. -/
theorem C8_canonical (args₁ args₂ : List PyArg) (kw₁ kw₂ : List (String × PyVal))
    (d₁ d₂ : frozendict)
    (h₁ : frozendict.init args₁ kw₁ = .ok d₁) (h₂ : frozendict.init args₂ kw₂ = .ok d₂)
    (hnd₁ : (d₁.items.map Prod.fst).Nodup) (hnd₂ : (d₂.items.map Prod.fst).Nodup)
    (heq : dictEqb d₁.items d₂.items = true) :
    frozendict.eqFD d₁ d₂ = true ∧ d₁.hashInput = d₂.hashInput ∧ d₁.keys = d₂.keys ∧
      KeysSorted d₁.keys ∧ d₁.reprFD = d₂.reprFD := by
  have hc := frozendict_canonical (init_keys_invariant h₁) (init_keys_invariant h₂)
    hnd₁ hnd₂ heq
  refine ⟨heq, ?_, hc.1, ?_, ?_⟩
  · rw [frozendict.hashInput, frozendict.hashInput, hc.2]
  · rw [init_keys_invariant h₁]
    exact sortKeys_sorted _
  · rw [frozendict.reprFD, frozendict.reprFD, hc.2]

/-- Witness for C8: the mapping built from the named bindings `a=1, b=2` and
the one built from the mapping `{b: 2, a: 1}` agree in equality, hash input,
key order (`a` before `b`) and repr, and render as `frozendict(a=1, b=2)`. -/
theorem C8_canonical_witness :
    (frozendict.eqFD (frozendict.mkRaw [("a", PyVal.int 1), ("b", PyVal.int 2)])
          (frozendict.mkRaw [("b", PyVal.int 2), ("a", PyVal.int 1)]) = true ∧
        (frozendict.mkRaw [("a", PyVal.int 1), ("b", PyVal.int 2)]).hashInput =
          (frozendict.mkRaw [("b", PyVal.int 2), ("a", PyVal.int 1)]).hashInput ∧
        (frozendict.mkRaw [("a", PyVal.int 1), ("b", PyVal.int 2)]).keys =
          (frozendict.mkRaw [("b", PyVal.int 2), ("a", PyVal.int 1)]).keys ∧
        KeysSorted (frozendict.mkRaw [("a", PyVal.int 1), ("b", PyVal.int 2)]).keys ∧
        (frozendict.mkRaw [("a", PyVal.int 1), ("b", PyVal.int 2)]).reprFD =
          (frozendict.mkRaw [("b", PyVal.int 2), ("a", PyVal.int 1)]).reprFD) ∧
      (frozendict.mkRaw [("a", PyVal.int 1), ("b", PyVal.int 2)]).keys = ["a", "b"] ∧
      (frozendict.mkRaw [("a", PyVal.int 1), ("b", PyVal.int 2)]).reprFD =
        "frozendict(a=1, b=2)" := by
  refine ⟨C8_canonical [] [PyArg.mapping [("b", PyVal.int 2), ("a", PyVal.int 1)]]
      [("a", PyVal.int 1), ("b", PyVal.int 2)] []
      (frozendict.mkRaw [("a", PyVal.int 1), ("b", PyVal.int 2)])
      (frozendict.mkRaw [("b", PyVal.int 2), ("a", PyVal.int 1)])
      rfl rfl (by decide) (by decide) (by decide), by decide, ?_⟩
  show "frozendict(" ++
      String.intercalate ", " (List.map (fun p => p.1 ++ "=" ++ pyRepr p.2)
        (frozendict.sortedItems (frozendict.mkRaw [("a", PyVal.int 1), ("b", PyVal.int 2)]))) ++
      ")" = "frozendict(a=1, b=2)"
  rfl

/-- Claim C1, counterexample.  The claim asserts the hash-equality invariant
for every two equal values of the four structures.  Records inherit
`Mapping.__eq__` - dictionary comparison that ignores the record class and
the slot order - while `__hash__` hashes the tuple of values in slot order.
Two records over the same two bindings whose classes declare the slots in
opposite orders therefore compare equal but hash the tuples `(1, 2)` and
`(2, 1)`, whose CPython hashes differ. -/
theorem C1_counterexample :
    ImmutableMap.eqIM ⟨"TypeA", [("x", PyVal.int 1), ("y", PyVal.int 2)]⟩
        ⟨"TypeB", [("y", PyVal.int 2), ("x", PyVal.int 1)]⟩ = true ∧
      pyHashVal (ImmutableMap.hashInput ⟨"TypeA", [("x", PyVal.int 1), ("y", PyVal.int 2)]⟩) ≠
        pyHashVal (ImmutableMap.hashInput ⟨"TypeB", [("y", PyVal.int 2), ("x", PyVal.int 1)]⟩) ∧
      (pyHashVal (ImmutableMap.hashInput
        ⟨"TypeA", [("x", PyVal.int 1), ("y", PyVal.int 2)]⟩)).isSome = true := by
  decide

/-- Claim C1, amended.  The invariant `a == b` implies `hash(a) == hash(b)`
holds structure by structure: for any two certificate/request wrappers, any
two wrappers of the same key family (OKP wrappers are never `==`, their
`__eq__` being NotImplemented), any two records whose classes declare their
slots in the same order - in particular any two instances of one record
type - and any two constructed frozen mappings.  It fails only across
records with differently ordered schemas (see the counterexample). -/
theorem C1_amended :
    (∀ a b : ComparableX509, ComparableX509.eq a b = some true →
      a.hashInput = b.hashInput) ∧
      (∀ a b : ComparableRSAKey, ComparableRSAKey.eq a b = some true →
        a.hashInput = b.hashInput) ∧
      (∀ a b : ComparableECKey, ComparableECKey.eq a b = some true →
        a.hashInput = b.hashInput) ∧
      (∀ a b : ComparableOKPKey, ComparableOKPKey.eq a b ≠ some true) ∧
      (∀ a b : ImmutableMap, a.slots = b.slots → a.slots.Nodup →
        ImmutableMap.eqIM a b = true → a.hashInput = b.hashInput) ∧
      (∀ d₁ d₂ : frozendict,
        d₁.keys = sortKeys (d₁.items.map Prod.fst) →
        d₂.keys = sortKeys (d₂.items.map Prod.fst) →
        (d₁.items.map Prod.fst).Nodup → (d₂.items.map Prod.fst).Nodup →
        frozendict.eqFD d₁ d₂ = true → d₁.hashInput = d₂.hashInput) := by
  refine ⟨?_, ?_, ?_, ?_, ?_, ?_⟩
  · intro a b h
    rw [ComparableX509.eq, Option.some.injEq] at h
    rw [ComparableX509.hashInput, ComparableX509.hashInput, beq_iff_eq.mp h]
  · intro a b h
    obtain ⟨wa⟩ := a
    obtain ⟨wb⟩ := b
    cases wa with
    | priv p q d m1 m2 iq n e =>
      cases wb with
      | priv p2 q2 d2 m12 m22 iq2 n2 e2 =>
        simp only [ComparableRSAKey.eq, Option.some.injEq, Bool.and_eq_true,
          beq_iff_eq] at h
        obtain ⟨⟨⟨⟨⟨⟨⟨h1, h2⟩, h3⟩, h4⟩, h5⟩, h6⟩, h7⟩, h8⟩ := h
        subst h1 h2 h3 h4 h5 h6 h7 h8
        rfl
      | pub n2 e2 => simp [ComparableRSAKey.eq] at h
    | pub n e =>
      cases wb with
      | priv p2 q2 d2 m12 m22 iq2 n2 e2 => simp [ComparableRSAKey.eq] at h
      | pub n2 e2 =>
        simp only [ComparableRSAKey.eq, Option.some.injEq, Bool.and_eq_true,
          beq_iff_eq] at h
        obtain ⟨h1, h2⟩ := h
        subst h1 h2
        rfl
  · intro a b h
    obtain ⟨wa⟩ := a
    obtain ⟨wb⟩ := b
    cases wa with
    | priv c x y d =>
      cases wb with
      | priv c2 x2 y2 d2 =>
        simp only [ComparableECKey.eq, Option.some.injEq, Bool.and_eq_true,
          beq_iff_eq] at h
        obtain ⟨⟨⟨h1, h2⟩, h3⟩, h4⟩ := h
        subst h1 h2 h3 h4
        rfl
      | pub c2 x2 y2 => simp [ComparableECKey.eq] at h
    | pub c x y =>
      cases wb with
      | priv c2 x2 y2 d2 => simp [ComparableECKey.eq] at h
      | pub c2 x2 y2 =>
        simp only [ComparableECKey.eq, Option.some.injEq, Bool.and_eq_true,
          beq_iff_eq] at h
        obtain ⟨⟨h1, h2⟩, h3⟩ := h
        subst h1 h2 h3
        rfl
  · intro a b h
    simp [ComparableOKPKey.eq] at h
  · intro a b hsl hnd heq
    have hf : a.fields = b.fields :=
      assoc_eq_of_lookup_eq hsl hnd (lookup_eq_of_dictEqb heq)
    rw [ImmutableMap.hashInput, ImmutableMap.hashInput, hf]
  · intro d₁ d₂ hk₁ hk₂ hnd₁ hnd₂ heq
    have hc := frozendict_canonical hk₁ hk₂ hnd₁ hnd₂ heq
    rw [frozendict.hashInput, frozendict.hashInput, hc.2]

/-- Witness for C1 on concrete inputs of each structure: equal cert wrappers,
equal RSA private wrappers, equal EC public wrappers, two records of distinct
classes with identical schemas and fields, and two frozen mappings built in
opposite orders. -/
theorem C1_amended_witness :
    ComparableX509.hashInput ⟨.cert [48, 1]⟩ = ComparableX509.hashInput ⟨.cert [48, 1]⟩ ∧
      ComparableRSAKey.hashInput ⟨.priv 3 5 7 11 13 17 15 2⟩ =
        ComparableRSAKey.hashInput ⟨.priv 3 5 7 11 13 17 15 2⟩ ∧
      ComparableECKey.hashInput ⟨.pub "secp256r1" 4 9⟩ =
        ComparableECKey.hashInput ⟨.pub "secp256r1" 4 9⟩ ∧
      ImmutableMap.hashInput ⟨"TypeA", [("x", PyVal.int 1)]⟩ =
        ImmutableMap.hashInput ⟨"TypeB", [("x", PyVal.int 1)]⟩ ∧
      (frozendict.mkRaw [("a", PyVal.int 1), ("b", PyVal.int 2)]).hashInput =
        (frozendict.mkRaw [("b", PyVal.int 2), ("a", PyVal.int 1)]).hashInput :=
  ⟨C1_amended.1 ⟨.cert [48, 1]⟩ ⟨.cert [48, 1]⟩ (by decide),
    C1_amended.2.1 ⟨.priv 3 5 7 11 13 17 15 2⟩ ⟨.priv 3 5 7 11 13 17 15 2⟩ (by decide),
    C1_amended.2.2.1 ⟨.pub "secp256r1" 4 9⟩ ⟨.pub "secp256r1" 4 9⟩ (by decide),
    C1_amended.2.2.2.2.1 ⟨"TypeA", [("x", PyVal.int 1)]⟩ ⟨"TypeB", [("x", PyVal.int 1)]⟩
      rfl (by decide) (by decide),
    C1_amended.2.2.2.2.2 (frozendict.mkRaw [("a", PyVal.int 1), ("b", PyVal.int 2)])
      (frozendict.mkRaw [("b", PyVal.int 2), ("a", PyVal.int 1)])
      rfl rfl (by decide) (by decide) (by decide)⟩

end Josepy
